import Mathlib

/-!
# mtmon — verification of the ingestion/display model

Shallow embedding of the mtmon (Meshtastic Monitor) frontend state logic
(`GraphPage.tsx`, `PacketMonitor.tsx`, `utils.ts`, node table columns) and of
the backend state-store operations described by the spec (the Python backend
is not part of the checked sources; those operations are modelled from the
spec and marked as such).

Timestamps (ISO date strings / `Date` values in the source) are modelled as
`Nat` epoch values; JS `number` radio metrics (SNR/RSSI) are modelled as `Rat`
so that averages are exact.
-/

namespace Mtmon

/-- One gateway observation of a packet (`Packet.hops` element in the
frontend `types.ts`). -/
structure Hop where
  gateway_id : Nat
  seen_at : Nat
  hop_limit : Nat
  rssi : Rat
  snr : Rat
  relay_node : Option Nat
deriving DecidableEq, Repr

/-- The frontend `Packet` interface (`types.ts`): the WebSocket/REST packet
representation.  `payload` is opaque to all the logic modelled here. -/
structure Packet where
  id : Nat
  first_seen : Nat
  from_id : Nat
  to_id : Nat
  want_ack : Bool
  via_mqtt : Bool
  hop_start : Nat
  port : String
  payload : String
  hops : List Hop
deriving DecidableEq, Repr

/-- The merge performed by the WebSocket `onmessage` handler in
`GraphPage.tsx` when the incoming packet's `id` is already in the live list:
`{ ...prev[i], hops: newPacket.hops, first_seen: newPacket.first_seen <
prev[i].first_seen ? newPacket.first_seen : prev[i].first_seen }`. -/
def mergePacket (oldPacket newPacket : Packet) : Packet :=
  { oldPacket with
      hops := newPacket.hops,
      first_seen :=
        if newPacket.first_seen < oldPacket.first_seen then
          newPacket.first_seen
        else
          oldPacket.first_seen }

/-- The `setPackets` updater of the WebSocket `onmessage` handler in
`GraphPage.tsx`: find an entry with the same `id`; if absent prepend and
truncate to 1000 entries, else replace that entry with the merged packet. -/
def updatePackets (newPacket : Packet) (prevPackets : List Packet) :
    List Packet :=
  match prevPackets.findIdx? (fun packet => packet.id == newPacket.id) with
  | none => (newPacket :: prevPackets).take 1000
  | some packetIndex =>
    match prevPackets.get? packetIndex with
    | none => prevPackets
    | some oldPacket =>
      prevPackets.set packetIndex (mergePacket oldPacket newPacket)

/-- The `position` blob of a frontend `MeshtasticNode` (`types.ts`). -/
structure NodePosition where
  latitude_i : Int
  longitude_i : Int
  altitude : Int
  time : Nat
  location_source : String
  precision_bits : Nat
deriving DecidableEq, Repr

/-- The `info` blob of a frontend `MeshtasticNode` (`types.ts`). -/
structure NodeInfoBlob where
  short_name : String
  long_name : String
  hw_model : String
  role : String
deriving DecidableEq, Repr

/-- One element of a node's `gateways` array (`types.ts`): a gateway that
heard this node, with the time it last did. -/
structure GatewayObservation where
  last_seen : Nat
  gateway_id : Nat
deriving DecidableEq, Repr

/-- The frontend `MeshtasticNode` interface (`types.ts`), restricted to the
fields the verified logic reads (metrics blobs are opaque here). -/
structure MeshtasticNode where
  id : Nat
  legacy : Bool
  hop_limit : Option Nat
  message_count : Nat
  first_seen : Nat
  position : Option NodePosition
  info : Option NodeInfoBlob
  gateways : Option (List GatewayObservation)
deriving DecidableEq, Repr

/-- `DirectLinkData` (`types.ts`): one directed link record as returned by
the backend's direct-link query. -/
structure DirectLinkData where
  from_node_id : Nat
  to_node_id : Nat
  last_seen : Nat
  last_snr : Option Rat
  last_rssi : Option Rat
  source : String
  observation_count : Nat
deriving DecidableEq, Repr

/-- The `direction` field of `ProcessedLink` (`types.ts`). -/
inductive LinkDirection where
  | bidirectional
  | AtoB
  | BtoA
deriving DecidableEq, Repr

/-- `ProcessedLink` (`types.ts`): the display-level merge of the two directed
records of one unordered node pair. -/
structure ProcessedLink where
  node1_id : Nat
  node2_id : Nat
  pos1 : Option (Rat × Rat)
  pos2 : Option (Rat × Rat)
  direction : LinkDirection
  link1 : Option DirectLinkData
  link2 : Option DirectLinkData
deriving DecidableEq, Repr

/-- `convertMeshtasticPosition` (`utils.ts`): fixed-point `×1e7` integer
coordinates to decimal degrees, `null` on a missing input or an out-of-range
result. -/
def convertMeshtasticPosition (latitude_i longitude_i : Option Int) :
    Option (Rat × Rat) :=
  match latitude_i, longitude_i with
  | some lat_i, some lon_i =>
    let latitude : Rat := (lat_i : Rat) / 10000000
    let longitude : Rat := (lon_i : Rat) / 10000000
    if latitude < -90 ∨ latitude > 90 ∨ longitude < -180 ∨ longitude > 180 then
      none
    else
      some (latitude, longitude)
  | _, _ => none

/-- `SNR_GOOD_THRESHOLD` (`types.ts`). -/
def SNR_GOOD_THRESHOLD : Rat := -7
/-- `SNR_FAIR_THRESHOLD` (`types.ts`). -/
def SNR_FAIR_THRESHOLD : Rat := -15
/-- `RSSI_GOOD_THRESHOLD` (`types.ts`). -/
def RSSI_GOOD_THRESHOLD : Rat := -115
/-- `RSSI_FAIR_THRESHOLD` (`types.ts`). -/
def RSSI_FAIR_THRESHOLD : Rat := -126

/-- The `snrValues` array collected at the top of `getLinkColor`
(`types.ts`): `last_snr` of `link1` then of `link2`, skipping
`null`/`undefined`. -/
def snrValues (link : ProcessedLink) : List Rat :=
  (link.link1.bind DirectLinkData.last_snr).toList ++
    (link.link2.bind DirectLinkData.last_snr).toList

/-- The `rssiValues` array collected at the top of `getLinkColor`
(`types.ts`). -/
def rssiValues (link : ProcessedLink) : List Rat :=
  (link.link1.bind DirectLinkData.last_rssi).toList ++
    (link.link2.bind DirectLinkData.last_rssi).toList

/-- The `reduce((a, b) => a + b, 0) / length` average used by
`getLinkColor`. -/
def average (values : List Rat) : Rat :=
  values.foldl (fun a b => a + b) 0 / (values.length : Rat)

/-- `getLinkColor` (`types.ts`): classify a processed link into one of five
colors from the average SNR/RSSI over the values present on its one or two
directed records. -/
def getLinkColor (link : ProcessedLink) : String :=
  let snrs := snrValues link
  let rssis := rssiValues link
  let hasSnr := snrs.length > 0
  let hasRssi := rssis.length > 0
  if hasSnr ∧ hasRssi ∧ snrs.length = rssis.length then
    let avgSnr := average snrs
    let avgRssi := average rssis
    if avgSnr > SNR_GOOD_THRESHOLD ∧ avgRssi > RSSI_GOOD_THRESHOLD then
      "#10b981"
    else if (avgSnr > SNR_GOOD_THRESHOLD ∧ avgRssi > RSSI_FAIR_THRESHOLD) ∨
        (avgSnr > SNR_FAIR_THRESHOLD ∧ avgRssi > RSSI_GOOD_THRESHOLD) then
      "#f59e0b"
    else if avgSnr ≤ SNR_FAIR_THRESHOLD ∧ avgRssi ≤ RSSI_FAIR_THRESHOLD then
      "#ef4444"
    else
      "#f97316"
  else if hasSnr then
    let avgSnr := average snrs
    if avgSnr > SNR_GOOD_THRESHOLD then
      "#10b981"
    else if avgSnr > SNR_FAIR_THRESHOLD then
      "#f59e0b"
    else
      "#ef4444"
  else
    "#94a3b8"

/-- The `last_seen` column `accessorFn` of the node table (frontend node
list): the latest gateway observation, falling back to the node's own
`first_seen` when it has no gateway observations. -/
def lastSeenAccessor (row : MeshtasticNode) : Nat :=
  match row.gateways with
  | none => row.first_seen
  | some gateways =>
    if gateways.length = 0 then
      row.first_seen
    else
      (gateways.map (fun gateway => gateway.last_seen)).foldl
        (fun latest current => if latest < current then current else latest) 0

/-- The per-packet predicate of the `filteredPackets` effect in
`PacketMonitor.tsx`.  `gatewayId` is the component's `number` prop, with the
JS-falsy value `0` meaning "no gateway filter" (`gatewayId ? ... : true`). -/
def packetMatches (gatewayId : Nat)
    (selectedFromNodeId selectedToNodeId : Option Nat) (packet : Packet) :
    Bool :=
  let gatewayMatch :=
    if gatewayId ≠ 0 then
      packet.hops.any (fun hop => hop.gateway_id == gatewayId)
    else
      true
  let fromNodeMatch :=
    match selectedFromNodeId with
    | some fromId => packet.from_id == fromId
    | none => true
  let toNodeMatch :=
    match selectedToNodeId with
    | some toId => packet.to_id == toId
    | none => true
  gatewayMatch && fromNodeMatch && toNodeMatch

/-- The `filteredPackets` computation in `PacketMonitor.tsx`: only the first
`maxPacketsToProcess = 200` live packets are considered, then the gateway and
node filters are applied. -/
def filteredPackets (gatewayId : Nat)
    (selectedFromNodeId selectedToNodeId : Option Nat)
    (packets : List Packet) : List Packet :=
  (packets.take 200).filter
    (packetMatches gatewayId selectedFromNodeId selectedToNodeId)

/-- The `nodeMap` lookup in `processedLinks` (`GraphPage.tsx`):
`new Map(nodes.map(n => [n.id, n]))` — on duplicate ids a JS `Map` keeps the
last entry, hence the search over the reversed list. -/
def lookupNode (nodes : List MeshtasticNode) (i : Nat) :
    Option MeshtasticNode :=
  nodes.reverse.find? (fun n => n.id == i)

/-- The position computed for a link endpoint in `processedLinks`
(`GraphPage.tsx`): `convertMeshtasticPosition(node.position?.latitude_i,
node.position?.longitude_i)`. -/
def nodePos (node : MeshtasticNode) : Option (Rat × Rat) :=
  convertMeshtasticPosition (node.position.map NodePosition.latitude_i)
    (node.position.map NodePosition.longitude_i)

/-- The insertion-ordered `linksMap` of `processedLinks` (`GraphPage.tsx`),
as an association list keyed by the `(lower id, higher id)` pair key. -/
abbrev LinksMap := List ((Nat × Nat) × ProcessedLink)

/-- `linksMap.get(pairKey)`. -/
def linksMapFind (m : LinksMap) (k : Nat × Nat) : Option ProcessedLink :=
  (m.find? (fun e => e.1 == k)).map Prod.snd

/-- `linksMap.set(pairKey, v)` for a key already present: replace the value
in place (JS `Map` keeps the original insertion position). -/
def linksMapSet (m : LinksMap) (k : Nat × Nat) (v : ProcessedLink) :
    LinksMap :=
  m.map (fun e => if e.1 == k then (k, v) else e)

/-- One iteration of the `directLinks.forEach` loop in `processedLinks`
(`GraphPage.tsx`): skip the record if either endpoint node is unknown,
otherwise create the pair entry, or mark it bidirectional and attach this
direction's record. -/
def processLink (nodes : List MeshtasticNode) (linksMap : LinksMap)
    (link : DirectLinkData) : LinksMap :=
  match lookupNode nodes link.from_node_id,
      lookupNode nodes link.to_node_id with
  | some node1, some node2 =>
    let pos1 := nodePos node1
    let pos2 := nodePos node2
    let id1 := min link.from_node_id link.to_node_id
    let id2 := max link.from_node_id link.to_node_id
    let isAtoB := link.from_node_id == id1
    match linksMapFind linksMap (id1, id2) with
    | none =>
      linksMap ++ [((id1, id2),
        { node1_id := id1, node2_id := id2,
          pos1 := if isAtoB then pos1 else pos2,
          pos2 := if isAtoB then pos2 else pos1,
          direction := if isAtoB then LinkDirection.AtoB else LinkDirection.BtoA,
          link1 := if isAtoB then some link else none,
          link2 := if isAtoB then none else some link })]
    | some existing =>
      linksMapSet linksMap (id1, id2) <|
        if isAtoB then
          { existing with
              direction := LinkDirection.bidirectional
              link1 := some link
              pos1 := pos1
              pos2 := pos2 }
        else
          { existing with
              direction := LinkDirection.bidirectional
              link2 := some link
              pos1 := pos2
              pos2 := pos1 }
  | _, _ => linksMap

/-- `processedLinks` (`GraphPage.tsx`): fold the direct-link records into the
pair-keyed map and return its values in insertion order. -/
def processedLinks (nodes : List MeshtasticNode)
    (directLinks : List DirectLinkData) : List ProcessedLink :=
  (directLinks.foldl (processLink nodes) []).map Prod.snd

/-! ## Spec-modelled backend state store

The Python backend (state store, link-derivation engine, WebSocket fan-out)
is not among the checked sources; the following operations are modelled from
the spec's public contract (§4.2–§4.4) and from the backend README's data
model, and each is marked `Modelled from the spec`. -/

/-- A row of the backend `packets` table (README: "unique packet tuple
`(id, from_id, to_id)` with first seen and metadata"). -/
structure PacketRow where
  packet_id : Nat
  from_id : Nat
  to_id : Nat
  first_seen : Nat
  hop_start : Nat
  port : String
  want_ack : Bool
  via_mqtt : Bool
deriving DecidableEq, Repr

/-- The composite packet identity `(packet_id, from_id, to_id)`. -/
def samePacketKey (r row : PacketRow) : Bool :=
  r.packet_id == row.packet_id && r.from_id == row.from_id &&
    r.to_id == row.to_id

/-- Modelled from the spec: `record_packet(key, first_seen_candidate,
header_fields)` of the backend state store (not under the checked sources) —
"create row if key unseen; else no-op on the immutable fields, update
first_seen to `min(existing, candidate)`". -/
def record_packet (store : List PacketRow) (row : PacketRow) :
    List PacketRow :=
  if store.any (fun r => samePacketKey r row) then
    store.map (fun r =>
      if samePacketKey r row then
        { r with first_seen := min r.first_seen row.first_seen }
      else r)
  else
    row :: store

/-- A row of the backend `packet_gateway_links` (hop) table. -/
structure HopRow where
  packet_id : Nat
  from_id : Nat
  to_id : Nat
  gateway_id : Nat
  seen_at : Nat
  hop_limit : Nat
  rssi : Rat
  snr : Rat
deriving DecidableEq, Repr

/-- The hop identity `(packet key, gateway_id)`. -/
def sameHopKey (r row : HopRow) : Bool :=
  r.packet_id == row.packet_id && r.from_id == row.from_id &&
    r.to_id == row.to_id && r.gateway_id == row.gateway_id

/-- Modelled from the spec: `record_hop(packet_key, gateway_id, hop_fields)`
of the backend state store (not under the checked sources) — "upsert unique
on (packet_key, gateway_id)". -/
def record_hop (hops : List HopRow) (row : HopRow) : List HopRow :=
  if hops.any (fun r => sameHopKey r row) then
    hops.map (fun r => if sameHopKey r row then row else r)
  else
    row :: hops

/-- A row of the backend `direct_links` table. -/
structure DirectLinkRow where
  from_node_id : Nat
  to_node_id : Nat
  last_seen : Nat
  last_snr : Option Rat
  last_rssi : Option Rat
  source : String
  observation_count : Nat
deriving DecidableEq, Repr

/-- One piece of direct-link evidence handed to the link-derivation upsert. -/
structure DirectLinkObs where
  from_node_id : Nat
  to_node_id : Nat
  seen_at : Nat
  snr : Option Rat
  rssi : Option Rat
  source : String
deriving DecidableEq, Repr

/-- Modelled from the spec: the link-derivation upsert of §4.3 (not under the
checked sources) — per ordered `(from, to)` pair, update `last_seen` if
newer, increment `observation_count` unconditionally on every observation,
and overwrite `last_snr`/`last_rssi`/`source` exactly when the incoming
observation is the chronologically most recent. -/
def upsert_direct_link (links : List DirectLinkRow) (obs : DirectLinkObs) :
    List DirectLinkRow :=
  if links.any (fun r =>
      r.from_node_id == obs.from_node_id &&
        r.to_node_id == obs.to_node_id) then
    links.map (fun r =>
      if r.from_node_id == obs.from_node_id &&
          r.to_node_id == obs.to_node_id then
        { r with
            last_seen := max r.last_seen obs.seen_at,
            last_snr := if r.last_seen ≤ obs.seen_at then obs.snr
              else r.last_snr,
            last_rssi := if r.last_seen ≤ obs.seen_at then obs.rssi
              else r.last_rssi,
            source := if r.last_seen ≤ obs.seen_at then obs.source
              else r.source,
            observation_count := r.observation_count + 1 }
      else r)
  else
    { from_node_id := obs.from_node_id, to_node_id := obs.to_node_id,
      last_seen := obs.seen_at, last_snr := obs.snr, last_rssi := obs.rssi,
      source := obs.source, observation_count := 1 } :: links

/-- The freshness window of "current" link queries, in seconds (24 hours). -/
def freshnessWindow : Nat := 24 * 3600

/-- Modelled from the spec: the backend's "current" direct-link query
(`GET /links/direct`, not under the checked sources) — a pure, query-time
filter keeping rows whose `last_seen` lies within the rolling window before
`now`; nothing is deleted. -/
def currentLinks (links : List DirectLinkRow) (now window : Nat) :
    List DirectLinkRow :=
  links.filter (fun l => now ≤ l.last_seen + window)

/-- Modelled from the spec: the WebSocket fan-out filter of §4.4 (not under
the checked sources) — a subscriber with no gateway filter receives every
recorded packet; one with filter `g` receives exactly the packets with at
least one hop from gateway `g`. -/
def broadcastReceives (gatewayFilter : Option Nat) (packet : Packet) :
    Bool :=
  match gatewayFilter with
  | none => true
  | some g => packet.hops.any (fun hop => hop.gateway_id == g)

/-! ## Claims -/

/-- **C7** — Position fixed-point encoding: for defined inputs,
`convertMeshtasticPosition` returns `[latitude_i / 10^7, longitude_i / 10^7]`
exactly when `latitude_i / 10^7 ∈ [-90, 90]` and
`longitude_i / 10^7 ∈ [-180, 180]`; it returns `null` when either input is
undefined or either converted coordinate is out of range. -/
theorem convertMeshtasticPosition_spec :
    ∀ lat_i lon_i : Int,
      (convertMeshtasticPosition (some lat_i) (some lon_i) =
          some ((lat_i : Rat) / 10000000, (lon_i : Rat) / 10000000) ↔
        (-90 ≤ (lat_i : Rat) / 10000000 ∧ (lat_i : Rat) / 10000000 ≤ 90 ∧
          -180 ≤ (lon_i : Rat) / 10000000 ∧
          (lon_i : Rat) / 10000000 ≤ 180)) ∧
      (¬(-90 ≤ (lat_i : Rat) / 10000000 ∧ (lat_i : Rat) / 10000000 ≤ 90 ∧
          -180 ≤ (lon_i : Rat) / 10000000 ∧
          (lon_i : Rat) / 10000000 ≤ 180) →
        convertMeshtasticPosition (some lat_i) (some lon_i) = none) ∧
      (∀ o : Option Int, convertMeshtasticPosition none o = none) ∧
      (∀ o : Option Int, convertMeshtasticPosition o none = none) := by
  intro lat_i lon_i
  have hred : convertMeshtasticPosition (some lat_i) (some lon_i) =
      if (lat_i : Rat) / 10000000 < -90 ∨ (lat_i : Rat) / 10000000 > 90 ∨
          (lon_i : Rat) / 10000000 < -180 ∨
          (lon_i : Rat) / 10000000 > 180 then
        none
      else
        some ((lat_i : Rat) / 10000000, (lon_i : Rat) / 10000000) := rfl
  refine ⟨?_, ?_, ?_, ?_⟩
  · by_cases h : (lat_i : Rat) / 10000000 < -90 ∨
        (lat_i : Rat) / 10000000 > 90 ∨
        (lon_i : Rat) / 10000000 < -180 ∨ (lon_i : Rat) / 10000000 > 180
    · rw [hred, if_pos h]
      constructor
      · intro hcontra; exact absurd hcontra (by simp)
      · intro hr
        exfalso
        obtain ⟨a1, a2, a3, a4⟩ := hr
        rcases h with h | h | h | h <;> linarith
    · rw [hred, if_neg h]
      push_neg at h
      exact ⟨fun _ => ⟨h.1, h.2.1, h.2.2.1, h.2.2.2⟩, fun _ => rfl⟩
  · intro hrange
    rw [hred, if_pos]
    by_contra hcond
    push_neg at hcond
    exact hrange ⟨hcond.1, hcond.2.1, hcond.2.2.1, hcond.2.2.2⟩
  · intro o; cases o <;> rfl
  · intro o; cases o <;> rfl

/-- **C7 witness**: a concrete in-range conversion and a concrete
out-of-range rejection. -/
theorem convertMeshtasticPosition_spec_witness :
    convertMeshtasticPosition (some 520000000) (some 134000000) =
        some ((520000000 : Rat) / 10000000, (134000000 : Rat) / 10000000) ∧
      convertMeshtasticPosition (some 910000000) (some 0) = none :=
  ⟨(convertMeshtasticPosition_spec 520000000 134000000).1.mpr (by norm_num),
    (convertMeshtasticPosition_spec 910000000 0).2.1 (by norm_num)⟩

/-- The fold in the `last_seen` accessor is the `max` fold. -/
lemma lastSeen_fold_eq_max (l : List Nat) (a : Nat) :
    l.foldl (fun latest current => if latest < current then current
      else latest) a = l.foldl max a := by
  induction l generalizing a with
  | nil => rfl
  | cons x xs ih =>
    simp only [List.foldl_cons, ih]
    congr 1
    by_cases h : a < x
    · simp [h, Nat.max_eq_right (Nat.le_of_lt h)]
    · simp [h, Nat.max_eq_left (Nat.le_of_not_lt h)]

/-- `foldl max` starting at `a` returns `a` or a member of the list. -/
lemma foldl_max_eq_init_or_mem (l : List Nat) (a : Nat) :
    l.foldl max a = a ∨ l.foldl max a ∈ l := by
  induction l generalizing a with
  | nil => exact Or.inl rfl
  | cons x xs ih =>
    simp only [List.foldl_cons]
    rcases ih (max a x) with h | h
    · rw [h]
      rcases Nat.le_total a x with hax | hxa
      · exact Or.inr (by rw [Nat.max_eq_right hax]; exact List.mem_cons_self _ _)
      · exact Or.inl (Nat.max_eq_left hxa)
    · exact Or.inr (List.mem_cons_of_mem _ h)

/-- `foldl max` is an upper bound of the start value and all members. -/
lemma le_foldl_max (l : List Nat) (a : Nat) :
    a ≤ l.foldl max a ∧ ∀ x ∈ l, x ≤ l.foldl max a := by
  induction l generalizing a with
  | nil => exact ⟨Nat.le_refl a, by simp⟩
  | cons y ys ih =>
    simp only [List.foldl_cons]
    obtain ⟨h1, h2⟩ := ih (max a y)
    refine ⟨Nat.le_trans (Nat.le_max_left a y) h1, ?_⟩
    intro x hx
    rcases List.mem_cons.mp hx with rfl | hx
    · exact Nat.le_trans (Nat.le_max_right a x) h1
    · exact h2 x hx

/-- **C10** — the node list's computed last-seen value is the maximum of the
`last_seen` timestamps over the node's gateway observations, falling back to
the node's own `first_seen` when the `gateways` list is missing or empty. -/
theorem lastSeenAccessor_spec :
    ∀ row : MeshtasticNode,
      ((row.gateways = none ∨ row.gateways = some []) →
        lastSeenAccessor row = row.first_seen) ∧
      (∀ gws, row.gateways = some gws → gws ≠ [] →
        (∃ g ∈ gws, lastSeenAccessor row = g.last_seen) ∧
        ∀ g ∈ gws, g.last_seen ≤ lastSeenAccessor row) := by
  intro row
  constructor
  · rintro (h | h) <;> simp [lastSeenAccessor, h]
  · intro gws hg hne
    have hlen : ¬gws.length = 0 := fun h => hne (List.length_eq_zero.mp h)
    have hacc : lastSeenAccessor row =
        (gws.map (fun gateway => gateway.last_seen)).foldl max 0 := by
      simp [lastSeenAccessor, hg, hlen, lastSeen_fold_eq_max]
    constructor
    · rcases foldl_max_eq_init_or_mem
          (gws.map (fun gateway => gateway.last_seen)) 0 with h0 | hmem
      · -- the fold equals the start value 0; the head's timestamp is then 0
        obtain ⟨g0, hg0⟩ := List.exists_mem_of_ne_nil gws hne
        have hle := (le_foldl_max (gws.map (fun gateway => gateway.last_seen)) 0).2
            g0.last_seen (List.mem_map.mpr ⟨g0, hg0, rfl⟩)
        rw [h0] at hle
        exact ⟨g0, hg0, by rw [hacc, h0]; exact (Nat.le_zero.mp hle).symm⟩
      · obtain ⟨g, hgmem, hgeq⟩ := List.mem_map.mp hmem
        exact ⟨g, hgmem, by rw [hacc, ← hgeq]⟩
    · intro g hgmem
      rw [hacc]
      exact (le_foldl_max _ 0).2 g.last_seen (List.mem_map.mpr ⟨g, hgmem, rfl⟩)

/-- **C10 witness**: a node with two gateway observations and one without
any. -/
theorem lastSeenAccessor_spec_witness :
    (∃ g ∈ [(⟨5, 9⟩ : GatewayObservation), ⟨11, 8⟩],
      lastSeenAccessor
        ⟨1, false, none, 0, 42, none, none, some [⟨5, 9⟩, ⟨11, 8⟩]⟩ =
        g.last_seen) ∧
    lastSeenAccessor ⟨1, false, none, 0, 42, none, none, none⟩ = 42 := by
  constructor
  · exact ((lastSeenAccessor_spec
        ⟨1, false, none, 0, 42, none, none, some [⟨5, 9⟩, ⟨11, 8⟩]⟩).2
        [⟨5, 9⟩, ⟨11, 8⟩] rfl (by decide)).1
  · exact (lastSeenAccessor_spec ⟨1, false, none, 0, 42, none, none, none⟩).1
      (Or.inl rfl)

/-- **C6** — freshness window: the "current" link query includes a stored
`DirectLink` record exactly when its `last_seen` lies within the rolling
24-hour window; a record 25 hours old is excluded from the current listing
yet, being query-time filtering rather than deletion, is still returned once
the window is widened enough. -/
theorem currentLinks_spec :
    ∀ (links : List DirectLinkRow) (l : DirectLinkRow) (now : Nat),
      l ∈ links →
      (l ∈ currentLinks links now freshnessWindow ↔
        now ≤ l.last_seen + freshnessWindow) ∧
      (now = l.last_seen + 25 * 3600 →
        l ∉ currentLinks links now freshnessWindow ∧
        ∀ window, now ≤ l.last_seen + window →
          l ∈ currentLinks links now window) := by
  intro links l now hmem
  constructor
  · simp [currentLinks, List.mem_filter, hmem]
  · intro hnow
    constructor
    · intro hcur
      have h := (List.mem_filter.mp hcur).2
      simp only [decide_eq_true_eq] at h
      rw [hnow] at h
      simp only [freshnessWindow] at h
      omega
    · intro window hw
      exact List.mem_filter.mpr ⟨hmem, by simpa using hw⟩

/-- **C6 witness**: a single stored link, 25 hours old, is excluded from the
24-hour listing but returned under a 26-hour window. -/
theorem currentLinks_spec_witness :
    (⟨1, 2, 100, none, none, "mqtt_hear", 1⟩ : DirectLinkRow) ∉
        currentLinks [⟨1, 2, 100, none, none, "mqtt_hear", 1⟩]
          (100 + 25 * 3600) freshnessWindow ∧
      (⟨1, 2, 100, none, none, "mqtt_hear", 1⟩ : DirectLinkRow) ∈
        currentLinks [⟨1, 2, 100, none, none, "mqtt_hear", 1⟩]
          (100 + 25 * 3600) (26 * 3600) := by
  have h := (currentLinks_spec [⟨1, 2, 100, none, none, "mqtt_hear", 1⟩]
      ⟨1, 2, 100, none, none, "mqtt_hear", 1⟩ (100 + 25 * 3600)
      (List.mem_singleton.mpr rfl)).2 rfl
  exact ⟨h.1, h.2 (26 * 3600) (by norm_num)⟩

/-- **C4** — gateway fan-out filtering: a subscriber with gateway filter `G`
receives a packet exactly when the packet has at least one hop whose
`gateway_id` is `G`, and a subscriber with no filter receives everything
(spec-modelled `broadcastReceives`); client-side, `PacketMonitor` with
gateway prop `G ≠ 0` and no node filters displays a processed live packet
exactly when some hop carries `gateway_id = G`, and with the no-filter prop
`0` it displays every processed live packet. -/
theorem fanoutFiltering_spec :
    ∀ (packet : Packet) (g : Nat) (packets : List Packet),
      (broadcastReceives (some g) packet = true ↔
        ∃ hop ∈ packet.hops, hop.gateway_id = g) ∧
      broadcastReceives none packet = true ∧
      (g ≠ 0 →
        (packet ∈ filteredPackets g none none packets ↔
          packet ∈ packets.take 200 ∧
            ∃ hop ∈ packet.hops, hop.gateway_id = g)) ∧
      (packet ∈ filteredPackets 0 none none packets ↔
        packet ∈ packets.take 200) := by
  intro packet g packets
  refine ⟨?_, rfl, ?_, ?_⟩
  · simp [broadcastReceives, List.any_eq_true]
  · intro hg
    simp [filteredPackets, List.mem_filter, packetMatches, hg,
      List.any_eq_true]
  · simp [filteredPackets, List.mem_filter, packetMatches]

/-- **C4 witness**: a two-hop packet is received under its own gateway's
filter and displayed accordingly by the client-side filter. -/
theorem fanoutFiltering_spec_witness :
    (broadcastReceives (some 7)
        ⟨5, 100, 1, 2, false, false, 3, "TEXT", "",
          [⟨7, 100, 3, -50, 5, none⟩]⟩ = true) ∧
      (⟨5, 100, 1, 2, false, false, 3, "TEXT", "",
          [⟨7, 100, 3, -50, 5, none⟩]⟩ : Packet) ∈
        filteredPackets 7 none none
          [⟨5, 100, 1, 2, false, false, 3, "TEXT", "",
            [⟨7, 100, 3, -50, 5, none⟩]⟩] := by
  constructor
  · exact (fanoutFiltering_spec
        ⟨5, 100, 1, 2, false, false, 3, "TEXT", "",
          [⟨7, 100, 3, -50, 5, none⟩]⟩ 7 []).1.mpr
      ⟨⟨7, 100, 3, -50, 5, none⟩, by decide, rfl⟩
  · exact ((fanoutFiltering_spec
        ⟨5, 100, 1, 2, false, false, 3, "TEXT", "",
          [⟨7, 100, 3, -50, 5, none⟩]⟩ 7
        [⟨5, 100, 1, 2, false, false, 3, "TEXT", "",
          [⟨7, 100, 3, -50, 5, none⟩]⟩]).2.2.1 (by decide)).mpr
      ⟨by decide, ⟨7, 100, 3, -50, 5, none⟩, by decide, rfl⟩

/-- When no live entry carries the incoming packet's id, the WebSocket
updater prepends and truncates. -/
lemma updatePackets_of_not_mem (p : Packet) (l : List Packet)
    (h : ∀ q ∈ l, q.id ≠ p.id) :
    updatePackets p l = (p :: l).take 1000 := by
  unfold updatePackets
  have hfind : l.findIdx? (fun packet => packet.id == p.id) = none :=
    List.findIdx?_eq_none_iff.mpr fun q hq => by
      simpa using h q hq
  rw [hfind]

/-- When some live entry carries the incoming packet's id, the WebSocket
updater replaces the first such entry by the merged packet. -/
lemma updatePackets_of_mem (p : Packet) (l : List Packet)
    (h : ∃ q ∈ l, q.id = p.id) :
    ∃ i, ∃ hi : i < l.length,
      updatePackets p l = l.set i (mergePacket (l.get ⟨i, hi⟩) p) ∧
      (l.get ⟨i, hi⟩).id = p.id := by
  have hb : ∃ x ∈ l, (fun packet => packet.id == p.id) x = true := by
    obtain ⟨q, hq, hid⟩ := h
    exact ⟨q, hq, by simpa using hid⟩
  have hfind := List.findIdx?_eq_some_of_exists hb
  have hlt := List.findIdx_lt_length_of_exists hb
  refine ⟨l.findIdx (fun packet => packet.id == p.id), hlt, ?_, ?_⟩
  · unfold updatePackets
    rw [hfind]
    have hget : l.get? (l.findIdx (fun packet => packet.id == p.id)) =
        some (l.get ⟨l.findIdx (fun packet => packet.id == p.id), hlt⟩) := by
      simp [List.get?_eq_getElem?, List.getElem?_eq_getElem hlt]
    dsimp only
    rw [hget]
  · have := @List.findIdx_getElem _ (fun packet => packet.id == p.id) l hlt
    simpa using this

/-- **C2** — for an already-known packet key, a subsequent sighting updates
`first_seen` to `min(existing, candidate)` — an earlier timestamp moves it
backward, a later one never moves it forward — and leaves every other
immutable packet field unchanged; this holds for the spec-modelled backend
`record_packet` and for the frontend live-state merge alike. -/
theorem record_packet_first_seen_min :
    ∀ (store : List PacketRow) (row r : PacketRow),
      r ∈ store → samePacketKey r row = true →
      (({ r with first_seen := min r.first_seen row.first_seen } :
          PacketRow) ∈ record_packet store row ∧
        (record_packet store row).length = store.length) ∧
      (row.first_seen ≤ r.first_seen →
        min r.first_seen row.first_seen = row.first_seen) ∧
      (r.first_seen ≤ row.first_seen →
        min r.first_seen row.first_seen = r.first_seen) ∧
      (∀ oldPacket newPacket : Packet,
        (mergePacket oldPacket newPacket).first_seen =
          min oldPacket.first_seen newPacket.first_seen ∧
        (mergePacket oldPacket newPacket).id = oldPacket.id ∧
        (mergePacket oldPacket newPacket).from_id = oldPacket.from_id ∧
        (mergePacket oldPacket newPacket).to_id = oldPacket.to_id ∧
        (mergePacket oldPacket newPacket).want_ack = oldPacket.want_ack ∧
        (mergePacket oldPacket newPacket).via_mqtt = oldPacket.via_mqtt ∧
        (mergePacket oldPacket newPacket).hop_start = oldPacket.hop_start ∧
        (mergePacket oldPacket newPacket).port = oldPacket.port ∧
        (mergePacket oldPacket newPacket).payload = oldPacket.payload) := by
  intro store row r hmem hkey
  have hany : store.any (fun x => samePacketKey x row) = true :=
    List.any_eq_true.mpr ⟨r, hmem, hkey⟩
  refine ⟨⟨?_, ?_⟩, fun h => Nat.min_eq_right h, fun h => Nat.min_eq_left h,
    ?_⟩
  · unfold record_packet
    rw [if_pos hany]
    refine List.mem_map.mpr ⟨r, hmem, ?_⟩
    rw [if_pos hkey]
  · unfold record_packet
    rw [if_pos hany, List.length_map]
  · intro oldPacket newPacket
    refine ⟨?_, rfl, rfl, rfl, rfl, rfl, rfl, rfl, rfl⟩
    unfold mergePacket
    dsimp only
    by_cases h : newPacket.first_seen < oldPacket.first_seen
    · rw [if_pos h, Nat.min_eq_right (Nat.le_of_lt h)]
    · rw [if_neg h, Nat.min_eq_left (Nat.le_of_not_lt h)]

/-- **C2 witness**: an out-of-order earlier sighting moves `first_seen` of
the stored row backward and keeps the header fields. -/
theorem record_packet_first_seen_min_witness :
    (({ packet_id := 5, from_id := 1, to_id := 2, first_seen := 90,
        hop_start := 3, port := "TEXT", want_ack := false,
        via_mqtt := false } : PacketRow) ∈
      record_packet [⟨5, 1, 2, 100, 3, "TEXT", false, false⟩]
        ⟨5, 1, 2, 90, 3, "TEXT", false, false⟩) ∧
    (record_packet [⟨5, 1, 2, 100, 3, "TEXT", false, false⟩]
        ⟨5, 1, 2, 90, 3, "TEXT", false, false⟩).length = 1 := by
  have h := (record_packet_first_seen_min
      [⟨5, 1, 2, 100, 3, "TEXT", false, false⟩]
      ⟨5, 1, 2, 90, 3, "TEXT", false, false⟩
      ⟨5, 1, 2, 100, 3, "TEXT", false, false⟩
      (List.mem_singleton.mpr rfl) (by decide)).1
  exact ⟨h.1, h.2⟩

/-- An id-match makes the WebSocket updater replace in place, keeping the
list length. -/
lemma updatePackets_length_of_mem (p : Packet) (l : List Packet)
    (h : ∃ q ∈ l, q.id = p.id) :
    (updatePackets p l).length = l.length := by
  obtain ⟨i, hi, heq, _⟩ := updatePackets_of_mem p l h
  rw [heq, List.length_set]

/-- **C8** — the live packet list never exceeds 1000 entries after an
update: an unknown id is inserted at the front and the list truncated to its
first 1000 entries, while a known id is replaced in place without changing
the length. -/
theorem updatePackets_bound :
    ∀ (newPacket : Packet) (prev : List Packet),
      (prev.length ≤ 1000 → (updatePackets newPacket prev).length ≤ 1000) ∧
      ((∀ q ∈ prev, q.id ≠ newPacket.id) →
        updatePackets newPacket prev = (newPacket :: prev).take 1000 ∧
        (updatePackets newPacket prev).head? = some newPacket) ∧
      ((∃ q ∈ prev, q.id = newPacket.id) →
        (updatePackets newPacket prev).length = prev.length) := by
  intro newPacket prev
  refine ⟨?_, ?_, updatePackets_length_of_mem newPacket prev⟩
  · intro hlen
    by_cases h : ∃ q ∈ prev, q.id = newPacket.id
    · rw [updatePackets_length_of_mem newPacket prev h]; exact hlen
    · push_neg at h
      rw [updatePackets_of_not_mem newPacket prev h, List.length_take]
      exact min_le_left _ _
  · intro h
    rw [updatePackets_of_not_mem newPacket prev h]
    refine ⟨rfl, ?_⟩
    rw [List.head?_take]
    simp

/-- **C8 witness**: inserting into a fresh list puts the packet at the head
and stays within the bound; re-delivering it keeps the length at one. -/
theorem updatePackets_bound_witness :
    (updatePackets ⟨5, 100, 1, 2, false, false, 3, "TEXT", "", []⟩ []).head? =
        some ⟨5, 100, 1, 2, false, false, 3, "TEXT", "", []⟩ ∧
      (updatePackets ⟨5, 100, 1, 2, false, false, 3, "TEXT", "", []⟩
        [⟨5, 90, 1, 2, false, false, 3, "TEXT", "", []⟩]).length = 1 := by
  constructor
  · exact ((updatePackets_bound
        ⟨5, 100, 1, 2, false, false, 3, "TEXT", "", []⟩ []).2.1
      (by simp)).2
  · exact (updatePackets_bound
        ⟨5, 100, 1, 2, false, false, 3, "TEXT", "", []⟩
        [⟨5, 90, 1, 2, false, false, 3, "TEXT", "", []⟩]).2.2
      ⟨⟨5, 90, 1, 2, false, false, 3, "TEXT", "", []⟩,
        List.mem_singleton.mpr rfl, rfl⟩

/-- **C1 counterexample** — the live packet state does *not* key entries by
the composite `(packet_id, from_id, to_id)`: two messages with the same
`packet_id = 5` but different `(from_id, to_id)` pairs — `(1, 2)` then
`(3, 4)` — end up as a single merged entry (the second message is folded
into the first entry, which keeps `from_id = 1, to_id = 2` and takes the
minimum `first_seen` and the new hops), not as two separate entries. -/
theorem livePackets_compositeKey_counterexample :
    updatePackets ⟨5, 90, 3, 4, false, false, 3, "TEXT", "", []⟩
        (updatePackets ⟨5, 100, 1, 2, false, false, 3, "TEXT", "", []⟩ []) =
      [⟨5, 90, 1, 2, false, false, 3, "TEXT", "", []⟩] := by rfl

/-- **C1 amended** — in the spec-modelled backend store, two messages with
the same `packet_id` but different `(from_id, to_id)` pairs do produce two
distinct `Packet` rows; the frontend live packet state, however, keys
entries by `packet_id` alone, so an incoming packet whose id matches an
existing entry is merged into it (the length does not grow) even when its
`(from_id, to_id)` pair differs. -/
theorem packetIdentity_amended :
    (∀ row1 row2 : PacketRow, samePacketKey row1 row2 = false →
      (record_packet (record_packet [] row1) row2).length = 2) ∧
    (∀ (newPacket : Packet) (prev : List Packet),
      (∃ q ∈ prev, q.id = newPacket.id) →
      (updatePackets newPacket prev).length = prev.length) := by
  constructor
  · intro row1 row2 hkey
    have h1 : record_packet [] row1 = [row1] := rfl
    rw [h1]
    unfold record_packet
    simp [hkey]
  · intro newPacket prev h
    exact updatePackets_length_of_mem newPacket prev h

/-- **C1 amended witness**: the backend keeps `(5,1,2)` and `(5,3,4)` as two
rows, while the live list keeps a single entry when the same id `5` arrives
with a different `(from_id, to_id)` pair. -/
theorem packetIdentity_amended_witness :
    (record_packet (record_packet [] ⟨5, 1, 2, 100, 3, "TEXT", false, false⟩)
        ⟨5, 3, 4, 90, 3, "TEXT", false, false⟩).length = 2 ∧
      (updatePackets ⟨5, 90, 3, 4, false, false, 3, "TEXT", "", []⟩
        [⟨5, 100, 1, 2, false, false, 3, "TEXT", "", []⟩]).length = 1 :=
  ⟨packetIdentity_amended.1 ⟨5, 1, 2, 100, 3, "TEXT", false, false⟩
      ⟨5, 3, 4, 90, 3, "TEXT", false, false⟩ (by decide),
    packetIdentity_amended.2 ⟨5, 90, 3, 4, false, false, 3, "TEXT", "", []⟩
      [⟨5, 100, 1, 2, false, false, 3, "TEXT", "", []⟩]
      ⟨⟨5, 100, 1, 2, false, false, 3, "TEXT", "", []⟩,
        List.mem_singleton.mpr rfl, rfl⟩⟩

/-- `samePacketKey` is reflexive. -/
lemma samePacketKey_refl (r : PacketRow) : samePacketKey r r = true := by
  simp [samePacketKey]

/-- Re-recording a packet row changes nothing (`min` is idempotent and
associative, and the key fields are immutable). -/
lemma record_packet_idem (s : List PacketRow) (row : PacketRow) :
    record_packet (record_packet s row) row = record_packet s row := by
  by_cases h : s.any (fun r => samePacketKey r row) = true
  · obtain ⟨r, hr, hkey⟩ := List.any_eq_true.mp h
    have h1 : record_packet s row = s.map (fun r =>
        if samePacketKey r row then
          { r with first_seen := min r.first_seen row.first_seen }
        else r) := by
      unfold record_packet; rw [if_pos h]
    have h2 : (record_packet s row).any (fun r => samePacketKey r row) =
        true := by
      rw [h1]
      refine List.any_eq_true.mpr ⟨_, List.mem_map.mpr ⟨r, hr, rfl⟩, ?_⟩
      rw [if_pos hkey]
      exact hkey
    rw [h1] at h2 ⊢
    unfold record_packet
    rw [if_pos h2, List.map_map]
    refine List.map_congr_left fun a _ => ?_
    by_cases ha : samePacketKey a row = true
    · rw [Function.comp_apply, if_pos ha,
        if_pos ((show samePacketKey
          { a with first_seen := min a.first_seen row.first_seen } row =
            samePacketKey a row from rfl).trans ha),
        Nat.min_assoc, Nat.min_self]
    · rw [Function.comp_apply, if_neg ha, if_neg ha]
  · have h1 : record_packet s row = row :: s := by
      unfold record_packet; rw [if_neg h]
    have h2 : (row :: s).any (fun r => samePacketKey r row) = true :=
      List.any_eq_true.mpr ⟨row, List.mem_cons_self _ _, samePacketKey_refl row⟩
    rw [h1]
    unfold record_packet
    rw [if_pos h2, List.map_cons]
    have hrowfix : (if samePacketKey row row then
        { row with first_seen := min row.first_seen row.first_seen }
      else row) = row := by
      rw [if_pos (samePacketKey_refl row), Nat.min_self]
    rw [hrowfix]
    congr 1
    have hall := List.any_eq_false.mp (eq_false_of_ne_true h)
    refine (List.map_congr_left fun a ha => ?_).trans (List.map_id s)
    have hka : ¬samePacketKey a row = true := hall a ha
    simp [hka]

/-- `sameHopKey` is reflexive. -/
lemma sameHopKey_refl (r : HopRow) : sameHopKey r r = true := by
  simp [sameHopKey]

/-- Re-recording a hop row changes nothing (the upsert replaces the row with
the identical row). -/
lemma record_hop_idem (hops : List HopRow) (row : HopRow) :
    record_hop (record_hop hops row) row = record_hop hops row := by
  by_cases h : hops.any (fun r => sameHopKey r row) = true
  · obtain ⟨r, hr, hkey⟩ := List.any_eq_true.mp h
    have h1 : record_hop hops row = hops.map (fun r =>
        if sameHopKey r row then row else r) := by
      unfold record_hop; rw [if_pos h]
    have h2 : (record_hop hops row).any (fun r => sameHopKey r row) =
        true := by
      rw [h1]
      refine List.any_eq_true.mpr ⟨_, List.mem_map.mpr ⟨r, hr, rfl⟩, ?_⟩
      rw [if_pos hkey]
      exact sameHopKey_refl row
    rw [h1] at h2 ⊢
    unfold record_hop
    rw [if_pos h2, List.map_map]
    refine List.map_congr_left fun a _ => ?_
    by_cases ha : sameHopKey a row = true
    · rw [Function.comp_apply, if_pos ha, if_pos (sameHopKey_refl row)]
    · rw [Function.comp_apply, if_neg ha, if_neg ha]
  · have h1 : record_hop hops row = row :: hops := by
      unfold record_hop; rw [if_neg h]
    have h2 : (row :: hops).any (fun r => sameHopKey r row) = true :=
      List.any_eq_true.mpr ⟨row, List.mem_cons_self _ _, sameHopKey_refl row⟩
    rw [h1]
    unfold record_hop
    rw [if_pos h2, List.map_cons, if_pos (sameHopKey_refl row)]
    congr 1
    have hall := List.any_eq_false.mp (eq_false_of_ne_true h)
    refine (List.map_congr_left fun a ha => ?_).trans (List.map_id hops)
    have hka : ¬sameHopKey a row = true := hall a ha
    simp [hka]

/-- **C5** — idempotence of repeated delivery: delivering the same message
twice leaves exactly one packet row for its key and one hop row for its
gateway in the spec-modelled store (both upserts are idempotent), increments
the affected direct link's `observation_count` exactly once per delivery
(so it reads 2 after two deliveries), and leaves exactly one entry for that
packet id in the frontend live packet list. -/
theorem idempotentDelivery_spec :
    ∀ (store : List PacketRow) (row : PacketRow) (hops : List HopRow)
      (hrow : HopRow) (links : List DirectLinkRow) (obs : DirectLinkObs)
      (newPacket : Packet) (prev : List Packet),
      record_packet (record_packet store row) row = record_packet store row ∧
      ((∀ r ∈ store, samePacketKey r row = false) →
        (record_packet (record_packet store row) row).countP
          (fun r => samePacketKey r row) = 1) ∧
      record_hop (record_hop hops hrow) hrow = record_hop hops hrow ∧
      ((∀ r ∈ hops, sameHopKey r hrow = false) →
        (record_hop (record_hop hops hrow) hrow).countP
          (fun r => sameHopKey r hrow) = 1) ∧
      ((∀ r ∈ links, (r.from_node_id == obs.from_node_id &&
          r.to_node_id == obs.to_node_id) = false) →
        (upsert_direct_link (upsert_direct_link links obs) obs).head? = some
          { from_node_id := obs.from_node_id, to_node_id := obs.to_node_id,
            last_seen := obs.seen_at, last_snr := obs.snr,
            last_rssi := obs.rssi, source := obs.source,
            observation_count := 2 }) ∧
      ((∀ q ∈ prev, q.id ≠ newPacket.id) →
        (updatePackets newPacket (updatePackets newPacket prev)).countP
          (fun q => q.id == newPacket.id) = 1) := by
  intro store row hops hrow links obs newPacket prev
  refine ⟨record_packet_idem store row, ?_, record_hop_idem hops hrow, ?_,
    ?_, ?_⟩
  · intro hall
    rw [record_packet_idem store row]
    have hany : store.any (fun r => samePacketKey r row) = false :=
      List.any_eq_false.mpr fun r hr => by simp [hall r hr]
    unfold record_packet
    rw [if_neg (by simp [hany]), List.countP_cons]
    rw [List.countP_eq_zero.mpr fun r hr => by simp [hall r hr]]
    simp [samePacketKey_refl]
  · intro hall
    rw [record_hop_idem hops hrow]
    have hany : hops.any (fun r => sameHopKey r hrow) = false :=
      List.any_eq_false.mpr fun r hr => by simp [hall r hr]
    unfold record_hop
    rw [if_neg (by simp [hany]), List.countP_cons]
    rw [List.countP_eq_zero.mpr fun r hr => by simp [hall r hr]]
    simp [sameHopKey_refl]
  · intro hall
    have hany : links.any (fun r => r.from_node_id == obs.from_node_id &&
        r.to_node_id == obs.to_node_id) = false :=
      List.any_eq_false.mpr fun r hr => by simp [hall r hr]
    have h1 : upsert_direct_link links obs =
        ({ from_node_id := obs.from_node_id,
           to_node_id := obs.to_node_id,
           last_seen := obs.seen_at,
           last_snr := obs.snr,
           last_rssi := obs.rssi,
           source := obs.source,
           observation_count := 1 } : DirectLinkRow) :: links := by
      unfold upsert_direct_link
      rw [if_neg (by simp [hany])]
    rw [h1]
    unfold upsert_direct_link
    rw [if_pos (List.any_eq_true.mpr ⟨_, List.mem_cons_self _ _, by simp⟩)]
    rw [List.map_cons, List.head?_cons]
    rw [if_pos (by simp)]
    simp [Nat.max_self]
  · intro h
    have hstep1 : updatePackets newPacket prev =
        newPacket :: prev.take 999 := by
      rw [updatePackets_of_not_mem newPacket prev h,
        show (1000 : Nat) = 999 + 1 from rfl, List.take_succ_cons]
    rw [hstep1]
    unfold updatePackets
    rw [List.findIdx?_cons, if_pos (by simp)]
    dsimp only
    rw [show (newPacket :: List.take 999 prev).get? 0 = some newPacket from
      rfl]
    dsimp only
    rw [List.countP_set _ _ _ _ (by simp)]
    have htake : (newPacket :: prev.take 999).countP
        (fun q => q.id == newPacket.id) = 1 := by
      rw [List.countP_cons]
      rw [List.countP_eq_zero.mpr fun q hq => by
        simpa using h q ((List.take_sublist 999 prev).subset hq)]
      simp
    rw [htake]
    simp [mergePacket]

/-- **C5 witness**: double delivery of a concrete message into empty state
leaves one packet row, one hop row, an `observation_count` of 2 and a single
live entry. -/
theorem idempotentDelivery_spec_witness :
    (record_packet (record_packet [] ⟨5, 1, 2, 100, 3, "TEXT", false, false⟩)
        ⟨5, 1, 2, 100, 3, "TEXT", false, false⟩).countP
      (fun r => samePacketKey r ⟨5, 1, 2, 100, 3, "TEXT", false, false⟩) =
        1 ∧
    (record_hop (record_hop [] ⟨5, 1, 2, 7, 100, 3, -50, 4⟩)
        ⟨5, 1, 2, 7, 100, 3, -50, 4⟩).countP
      (fun r => sameHopKey r ⟨5, 1, 2, 7, 100, 3, -50, 4⟩) = 1 ∧
    (upsert_direct_link (upsert_direct_link []
        ⟨1, 7, 100, some 4, some (-50), "mqtt_hear"⟩)
        ⟨1, 7, 100, some 4, some (-50), "mqtt_hear"⟩).head? = some
      ⟨1, 7, 100, some 4, some (-50), "mqtt_hear", 2⟩ ∧
    (updatePackets ⟨5, 100, 1, 2, false, false, 3, "TEXT", "", []⟩
        (updatePackets ⟨5, 100, 1, 2, false, false, 3, "TEXT", "", []⟩
          [])).countP
      (fun q => q.id == (5 : Nat)) = 1 := by
  obtain ⟨h1, h2, h3, h4, h5, h6⟩ := idempotentDelivery_spec []
    ⟨5, 1, 2, 100, 3, "TEXT", false, false⟩ [] ⟨5, 1, 2, 7, 100, 3, -50, 4⟩
    [] ⟨1, 7, 100, some 4, some (-50), "mqtt_hear"⟩
    ⟨5, 100, 1, 2, false, false, 3, "TEXT", "", []⟩ []
  exact ⟨h2 (by simp), h4 (by simp), h5 (by simp), h6 (by simp)⟩

/-- The collected SNR list is empty exactly when neither direction carries a
non-null SNR value. -/
lemma snrValues_eq_nil_iff (link : ProcessedLink) :
    snrValues link = [] ↔
      link.link1.bind DirectLinkData.last_snr = none ∧
        link.link2.bind DirectLinkData.last_snr = none := by
  unfold snrValues
  cases link.link1.bind DirectLinkData.last_snr <;>
    cases link.link2.bind DirectLinkData.last_snr <;> simp

/-- **C9** — `getLinkColor` always returns one of the five quality colors;
it returns the unknown-quality color `"#94a3b8"` exactly when neither
direction of the link carries a non-null SNR value; and when SNR values are
present but their count differs from the RSSI count, the color is decided by
the SNR average alone against the −7.0 (good) and −15.0 (fair) thresholds. -/
theorem getLinkColor_spec :
    ∀ link : ProcessedLink,
      (getLinkColor link = "#10b981" ∨ getLinkColor link = "#f59e0b" ∨
        getLinkColor link = "#ef4444" ∨ getLinkColor link = "#f97316" ∨
        getLinkColor link = "#94a3b8") ∧
      (getLinkColor link = "#94a3b8" ↔
        link.link1.bind DirectLinkData.last_snr = none ∧
          link.link2.bind DirectLinkData.last_snr = none) ∧
      ((snrValues link ≠ [] ∧
          (snrValues link).length ≠ (rssiValues link).length) →
        getLinkColor link =
          if average (snrValues link) > SNR_GOOD_THRESHOLD then "#10b981"
          else if average (snrValues link) > SNR_FAIR_THRESHOLD then
            "#f59e0b"
          else "#ef4444") := by
  intro link
  have hempty := snrValues_eq_nil_iff link
  by_cases hMatch : (snrValues link).length > 0 ∧
      (rssiValues link).length > 0 ∧
      (snrValues link).length = (rssiValues link).length
  · have hform : getLinkColor link =
        (if average (snrValues link) > SNR_GOOD_THRESHOLD ∧
            average (rssiValues link) > RSSI_GOOD_THRESHOLD then "#10b981"
          else if (average (snrValues link) > SNR_GOOD_THRESHOLD ∧
              average (rssiValues link) > RSSI_FAIR_THRESHOLD) ∨
              (average (snrValues link) > SNR_FAIR_THRESHOLD ∧
                average (rssiValues link) > RSSI_GOOD_THRESHOLD) then
            "#f59e0b"
          else if average (snrValues link) ≤ SNR_FAIR_THRESHOLD ∧
              average (rssiValues link) ≤ RSSI_FAIR_THRESHOLD then
            "#ef4444"
          else "#f97316") := by
      unfold getLinkColor
      dsimp only
      rw [if_pos hMatch]
    have hne : snrValues link ≠ [] := fun hnil => by
      have := hMatch.1
      simp [hnil] at this
    refine ⟨?_, ?_, ?_⟩
    · rw [hform]; split_ifs <;> simp
    · rw [hform]
      constructor
      · intro hc
        split_ifs at hc <;> exact absurd hc (by decide)
      · intro hnone
        exact absurd (hempty.mpr hnone) hne
    · intro hlen
      exact absurd hMatch.2.2 hlen.2
  · by_cases hSnr : (snrValues link).length > 0
    · have hform : getLinkColor link =
          (if average (snrValues link) > SNR_GOOD_THRESHOLD then "#10b981"
            else if average (snrValues link) > SNR_FAIR_THRESHOLD then
              "#f59e0b"
            else "#ef4444") := by
        unfold getLinkColor
        dsimp only
        rw [if_neg hMatch, if_pos hSnr]
      have hne : snrValues link ≠ [] := fun hnil => by
        simp [hnil] at hSnr
      refine ⟨?_, ?_, ?_⟩
      · rw [hform]; split_ifs <;> simp
      · rw [hform]
        constructor
        · intro hc
          split_ifs at hc <;> exact absurd hc (by decide)
        · intro hnone
          exact absurd (hempty.mpr hnone) hne
      · intro _
        exact hform
    · have hform : getLinkColor link = "#94a3b8" := by
        unfold getLinkColor
        dsimp only
        rw [if_neg hMatch, if_neg hSnr]
      have hnil : snrValues link = [] :=
        List.length_eq_zero.mp (Nat.eq_zero_of_not_pos hSnr)
      refine ⟨by simp [hform], ?_, ?_⟩
      · rw [hform]
        exact ⟨fun _ => hempty.mp hnil, fun _ => rfl⟩
      · intro hlen
        exact absurd hnil hlen.1

/-- **C9 witness**: a link whose single record has an SNR of 4 and no RSSI —
one SNR value against zero RSSI values — is classified good by the SNR
average alone. -/
theorem getLinkColor_spec_witness :
    getLinkColor ⟨1, 2, none, none, LinkDirection.AtoB,
        some ⟨1, 2, 50, some 4, none, "mqtt_hear", 1⟩, none⟩ = "#10b981" := by
  have h := (getLinkColor_spec ⟨1, 2, none, none, LinkDirection.AtoB,
      some ⟨1, 2, 50, some 4, none, "mqtt_hear", 1⟩, none⟩).2.2
    ⟨by simp [snrValues], by simp [snrValues, rssiValues]⟩
  rw [h, if_pos (by norm_num [average, snrValues, SNR_GOOD_THRESHOLD])]

/-- The (first, hence unique under per-ordered-pair uniqueness) directed
record `i1 → i2` of a direct-link list. -/
def fwdRecord (directLinks : List DirectLinkData) (i1 i2 : Nat) :
    Option DirectLinkData :=
  directLinks.find? (fun l => l.from_node_id == i1 && l.to_node_id == i2)

/-- The unordered pair key `(lower id, higher id)` of a directed record —
the `pairKey` of the `processedLinks` loop. -/
def pairKeyOf (l : DirectLinkData) : Nat × Nat :=
  (min l.from_node_id l.to_node_id, max l.from_node_id l.to_node_id)

/-- A processed link's `direction` tag agrees with which of its two record
slots are populated. -/
def directionOk (pl : ProcessedLink) : Prop :=
  match pl.link1, pl.link2 with
  | some _, some _ => pl.direction = LinkDirection.bidirectional
  | some _, none => pl.direction = LinkDirection.AtoB
  | none, some _ => pl.direction = LinkDirection.BtoA
  | none, none => False

/-- The fold invariant of `processedLinks`: a map entry correctly summarises
the directed records of its pair among the already-processed records. -/
def goodEntry (done : List DirectLinkData)
    (e : (Nat × Nat) × ProcessedLink) : Prop :=
  e.1.1 < e.1.2 ∧
  e.2.node1_id = e.1.1 ∧
  e.2.node2_id = e.1.2 ∧
  e.2.link1 = fwdRecord done e.1.1 e.1.2 ∧
  e.2.link2 = fwdRecord done e.1.2 e.1.1 ∧
  directionOk e.2

/-- Appending a record that is not the queried ordered pair leaves
`fwdRecord` unchanged. -/
lemma fwdRecord_append_no_match (done : List DirectLinkData)
    (x : DirectLinkData) (i1 i2 : Nat)
    (h : ¬(x.from_node_id = i1 ∧ x.to_node_id = i2)) :
    fwdRecord (done ++ [x]) i1 i2 = fwdRecord done i1 i2 := by
  unfold fwdRecord
  rw [List.find?_append]
  cases hfind : done.find? (fun l => l.from_node_id == i1 &&
      l.to_node_id == i2) with
  | some y => rw [Option.or_some]
  | none =>
    rw [Option.none_or]
    have hx : (x.from_node_id == i1 && x.to_node_id == i2) = false := by
      by_contra hc
      rw [Bool.not_eq_false, Bool.and_eq_true, beq_iff_eq, beq_iff_eq] at hc
      exact h hc
    simp [List.find?_cons, hx]

/-- Appending the queried ordered pair's record makes `fwdRecord` find it
when the prefix had none. -/
lemma fwdRecord_append_match (done : List DirectLinkData)
    (x : DirectLinkData) (i1 i2 : Nat)
    (hdone : fwdRecord done i1 i2 = none)
    (h : x.from_node_id = i1 ∧ x.to_node_id = i2) :
    fwdRecord (done ++ [x]) i1 i2 = some x := by
  unfold fwdRecord
  rw [List.find?_append]
  unfold fwdRecord at hdone
  rw [hdone, Option.none_or]
  have hx : (x.from_node_id == i1 && x.to_node_id == i2) = true := by
    rw [Bool.and_eq_true, beq_iff_eq, beq_iff_eq]
    exact h
  simp [List.find?_cons, hx]

/-- A successful `fwdRecord` lookup returns a member of the list carrying
exactly the queried ordered pair. -/
lemma fwdRecord_some_spec (done : List DirectLinkData) (i1 i2 : Nat)
    (y : DirectLinkData) (h : fwdRecord done i1 i2 = some y) :
    y ∈ done ∧ y.from_node_id = i1 ∧ y.to_node_id = i2 := by
  unfold fwdRecord at h
  refine ⟨List.mem_of_find?_eq_some h, ?_⟩
  have := List.find?_some h
  rw [Bool.and_eq_true, beq_iff_eq, beq_iff_eq] at this
  exact this

/-- A missing map key means no entry carries it. -/
lemma linksMapFind_eq_none_iff (m : LinksMap) (k : Nat × Nat) :
    linksMapFind m k = none ↔ ∀ e ∈ m, e.1 ≠ k := by
  unfold linksMapFind
  rw [Option.map_eq_none']
  rw [List.find?_eq_none]
  constructor
  · intro h e he hk
    exact absurd (by rw [hk]; exact beq_self_eq_true k) (h e he)
  · intro h e he
    intro hc
    exact h e he (eq_of_beq hc)

/-- A successful map lookup comes from an entry carrying the key. -/
lemma linksMapFind_eq_some (m : LinksMap) (k : Nat × Nat)
    (v : ProcessedLink) (h : linksMapFind m k = some v) :
    (k, v) ∈ m := by
  unfold linksMapFind at h
  rw [Option.map_eq_some'] at h
  obtain ⟨e, he, hv⟩ := h
  have hmem := List.mem_of_find?_eq_some he
  have hpred := @List.find?_some _ (fun e => e.1 == k) e m he
  have hk : e.1 = k := eq_of_beq hpred
  have hkv : (k, v) = e := by
    rw [← hk, ← hv]
  rw [hkv]
  exact hmem

/-- `directionOk` yields the three direction characterisations. -/
lemma directionOk_iff (pl : ProcessedLink) (h : directionOk pl) :
    (pl.direction = LinkDirection.bidirectional ↔
      pl.link1.isSome ∧ pl.link2.isSome) ∧
    (pl.direction = LinkDirection.AtoB ↔
      pl.link1.isSome ∧ pl.link2 = none) ∧
    (pl.direction = LinkDirection.BtoA ↔
      pl.link1 = none ∧ pl.link2.isSome) := by
  unfold directionOk at h
  cases h1 : pl.link1 with
  | some w1 =>
    cases h2 : pl.link2 with
    | some w2 => rw [h1, h2] at h; rw [h]; simp
    | none => rw [h1, h2] at h; rw [h]; simp
  | none =>
    cases h2 : pl.link2 with
    | some w2 => rw [h1, h2] at h; rw [h]; simp
    | none => rw [h1, h2] at h; exact absurd h (by simp)

/-- `processLink` reduction: fresh pair, record in lower→higher direction. -/
lemma processLink_eq_none_lt (nodes : List MeshtasticNode) (acc : LinksMap)
    (x : DirectLinkData) (node1 node2 : MeshtasticNode)
    (h1 : lookupNode nodes x.from_node_id = some node1)
    (h2 : lookupNode nodes x.to_node_id = some node2)
    (hlt : x.from_node_id < x.to_node_id)
    (hfind : linksMapFind acc (x.from_node_id, x.to_node_id) = none) :
    processLink nodes acc x = acc ++ [((x.from_node_id, x.to_node_id),
      { node1_id := x.from_node_id, node2_id := x.to_node_id,
        pos1 := nodePos node1, pos2 := nodePos node2,
        direction := LinkDirection.AtoB,
        link1 := some x, link2 := none })] := by
  unfold processLink
  rw [h1, h2]
  dsimp only
  rw [Nat.min_eq_left hlt.le, Nat.max_eq_right hlt.le, hfind]
  simp

/-- `processLink` reduction: fresh pair, record in higher→lower direction. -/
lemma processLink_eq_none_gt (nodes : List MeshtasticNode) (acc : LinksMap)
    (x : DirectLinkData) (node1 node2 : MeshtasticNode)
    (h1 : lookupNode nodes x.from_node_id = some node1)
    (h2 : lookupNode nodes x.to_node_id = some node2)
    (hlt : x.to_node_id < x.from_node_id)
    (hfind : linksMapFind acc (x.to_node_id, x.from_node_id) = none) :
    processLink nodes acc x = acc ++ [((x.to_node_id, x.from_node_id),
      { node1_id := x.to_node_id, node2_id := x.from_node_id,
        pos1 := nodePos node2, pos2 := nodePos node1,
        direction := LinkDirection.BtoA,
        link1 := none, link2 := some x })] := by
  unfold processLink
  rw [h1, h2]
  dsimp only
  rw [Nat.min_eq_right hlt.le, Nat.max_eq_left hlt.le, hfind]
  have hne : (x.from_node_id == x.to_node_id) = false :=
    beq_eq_false_iff_ne.mpr (Nat.ne_of_gt hlt)
  simp [hne]

/-- `processLink` reduction: known pair, record in lower→higher direction. -/
lemma processLink_eq_some_lt (nodes : List MeshtasticNode) (acc : LinksMap)
    (x : DirectLinkData) (node1 node2 : MeshtasticNode)
    (existing : ProcessedLink)
    (h1 : lookupNode nodes x.from_node_id = some node1)
    (h2 : lookupNode nodes x.to_node_id = some node2)
    (hlt : x.from_node_id < x.to_node_id)
    (hfind : linksMapFind acc (x.from_node_id, x.to_node_id) =
      some existing) :
    processLink nodes acc x =
      linksMapSet acc (x.from_node_id, x.to_node_id)
        { existing with
            direction := LinkDirection.bidirectional
            link1 := some x
            pos1 := nodePos node1
            pos2 := nodePos node2 } := by
  unfold processLink
  rw [h1, h2]
  dsimp only
  rw [Nat.min_eq_left hlt.le, Nat.max_eq_right hlt.le, hfind]
  simp

/-- `processLink` reduction: known pair, record in higher→lower direction. -/
lemma processLink_eq_some_gt (nodes : List MeshtasticNode) (acc : LinksMap)
    (x : DirectLinkData) (node1 node2 : MeshtasticNode)
    (existing : ProcessedLink)
    (h1 : lookupNode nodes x.from_node_id = some node1)
    (h2 : lookupNode nodes x.to_node_id = some node2)
    (hlt : x.to_node_id < x.from_node_id)
    (hfind : linksMapFind acc (x.to_node_id, x.from_node_id) =
      some existing) :
    processLink nodes acc x =
      linksMapSet acc (x.to_node_id, x.from_node_id)
        { existing with
            direction := LinkDirection.bidirectional
            link2 := some x
            pos1 := nodePos node2
            pos2 := nodePos node1 } := by
  unfold processLink
  rw [h1, h2]
  dsimp only
  rw [Nat.min_eq_right hlt.le, Nat.max_eq_left hlt.le, hfind]
  have hne : (x.from_node_id == x.to_node_id) = false :=
    beq_eq_false_iff_ne.mpr (Nat.ne_of_gt hlt)
  simp [hne]

/-- The pair key of a lower→higher record. -/
lemma pairKeyOf_lt (x : DirectLinkData)
    (h : x.from_node_id < x.to_node_id) :
    pairKeyOf x = (x.from_node_id, x.to_node_id) := by
  unfold pairKeyOf
  rw [Nat.min_eq_left h.le, Nat.max_eq_right h.le]

/-- The pair key of a higher→lower record. -/
lemma pairKeyOf_gt (x : DirectLinkData)
    (h : x.to_node_id < x.from_node_id) :
    pairKeyOf x = (x.to_node_id, x.from_node_id) := by
  unfold pairKeyOf
  rw [Nat.min_eq_right h.le, Nat.max_eq_left h.le]

/-- If no map entry carries the (ordered) pair key, the processed prefix has
no record of that pair in either direction. -/
lemma fwdRecord_eq_none_of_no_key (done : List DirectLinkData)
    (acc : LinksMap) (i1 i2 : Nat) (hord : i1 ≤ i2)
    (hacc2 : ∀ l ∈ done, ∃ e ∈ acc, e.1 = pairKeyOf l)
    (hnokey : ∀ e ∈ acc, e.1 ≠ (i1, i2)) :
    fwdRecord done i1 i2 = none ∧ fwdRecord done i2 i1 = none := by
  constructor
  · cases hy : fwdRecord done i1 i2 with
    | none => rfl
    | some y =>
      obtain ⟨hymem, hyf, hyt⟩ := fwdRecord_some_spec done i1 i2 y hy
      obtain ⟨e, he, hek⟩ := hacc2 y hymem
      refine absurd ?_ (hnokey e he)
      rw [hek]
      unfold pairKeyOf
      rw [hyf, hyt, Nat.min_eq_left hord, Nat.max_eq_right hord]
  · cases hy : fwdRecord done i2 i1 with
    | none => rfl
    | some y =>
      obtain ⟨hymem, hyf, hyt⟩ := fwdRecord_some_spec done i2 i1 y hy
      obtain ⟨e, he, hek⟩ := hacc2 y hymem
      refine absurd ?_ (hnokey e he)
      rw [hek]
      unfold pairKeyOf
      rw [hyf, hyt, Nat.min_eq_right hord, Nat.max_eq_left hord]

/-- A map entry for a different pair stays good when a record of another
pair is appended to the processed prefix. -/
lemma goodEntry_frame (done : List DirectLinkData) (x : DirectLinkData)
    (e : (Nat × Nat) × ProcessedLink) (hgood : goodEntry done e)
    (hne : e.1 ≠ pairKeyOf x) : goodEntry (done ++ [x]) e := by
  obtain ⟨hlt, hn1, hn2, hl1, hl2, hdir⟩ := hgood
  have hm1 : ¬(x.from_node_id = e.1.1 ∧ x.to_node_id = e.1.2) := by
    rintro ⟨ha, hb⟩
    apply hne
    unfold pairKeyOf
    rw [ha, hb, Nat.min_eq_left hlt.le, Nat.max_eq_right hlt.le]
  have hm2 : ¬(x.from_node_id = e.1.2 ∧ x.to_node_id = e.1.1) := by
    rintro ⟨ha, hb⟩
    apply hne
    unfold pairKeyOf
    rw [ha, hb, Nat.min_eq_right hlt.le, Nat.max_eq_left hlt.le]
  exact ⟨hlt, hn1, hn2,
    by rw [fwdRecord_append_no_match done x e.1.1 e.1.2 hm1]; exact hl1,
    by rw [fwdRecord_append_no_match done x e.1.2 e.1.1 hm2]; exact hl2,
    hdir⟩

/-- In a map with pairwise-distinct keys, two members with the same key are
the same entry. -/
lemma entry_eq_of_pairwise_keys (m : LinksMap)
    (hp : m.Pairwise (fun e1 e2 => e1.1 ≠ e2.1))
    (e1 e2 : (Nat × Nat) × ProcessedLink) (h1 : e1 ∈ m) (h2 : e2 ∈ m)
    (hk : e1.1 = e2.1) : e1 = e2 := by
  induction m with
  | nil => exact absurd h1 (List.not_mem_nil e1)
  | cons a t ih =>
    rw [List.pairwise_cons] at hp
    rcases List.mem_cons.mp h1 with rfl | h1t
    · rcases List.mem_cons.mp h2 with rfl | h2t
      · rfl
      · exact absurd hk (hp.1 e2 h2t)
    · rcases List.mem_cons.mp h2 with rfl | h2t
      · exact absurd hk.symm (hp.1 e1 h1t)
      · exact ih hp.2 h1t h2t

/-- `linksMapSet` never changes an entry's key. -/
lemma linksMapSet_key_fix (k : Nat × Nat) (v : ProcessedLink)
    (e : (Nat × Nat) × ProcessedLink) :
    ((if e.1 == k then (k, v) else e) : (Nat × Nat) × ProcessedLink).1 =
      e.1 := by
  by_cases h : (e.1 == k) = true
  · rw [if_pos h, ← eq_of_beq h]
  · rw [if_neg h]

/-- One step of the `processedLinks` fold preserves the invariant: after
processing one more record all map entries are good for the extended prefix,
the new record's pair is present, and keys stay pairwise distinct. -/
lemma processLink_step (nodes : List MeshtasticNode)
    (done : List DirectLinkData) (acc : LinksMap) (x : DirectLinkData)
    (hn1 : (lookupNode nodes x.from_node_id).isSome = true)
    (hn2 : (lookupNode nodes x.to_node_id).isSome = true)
    (hxne : x.from_node_id ≠ x.to_node_id)
    (hxnew : ∀ l ∈ done, ¬(l.from_node_id = x.from_node_id ∧
      l.to_node_id = x.to_node_id))
    (hacc1 : ∀ e ∈ acc, goodEntry done e)
    (hacc2 : ∀ l ∈ done, ∃ e ∈ acc, e.1 = pairKeyOf l)
    (hacc3 : acc.Pairwise (fun e1 e2 => e1.1 ≠ e2.1)) :
    (∀ e ∈ processLink nodes acc x, goodEntry (done ++ [x]) e) ∧
    (∀ l ∈ done ++ [x], ∃ e ∈ processLink nodes acc x,
      e.1 = pairKeyOf l) ∧
    (processLink nodes acc x).Pairwise (fun e1 e2 => e1.1 ≠ e2.1) := by
  obtain ⟨node1, h1⟩ := Option.isSome_iff_exists.mp hn1
  obtain ⟨node2, h2⟩ := Option.isSome_iff_exists.mp hn2
  rcases Nat.lt_or_gt_of_ne hxne with hlt | hgt
  · -- lower→higher record
    have hkey : pairKeyOf x = (x.from_node_id, x.to_node_id) :=
      pairKeyOf_lt x hlt
    cases hfind : linksMapFind acc (x.from_node_id, x.to_node_id) with
    | none =>
      have hproc := processLink_eq_none_lt nodes acc x node1 node2 h1 h2
        hlt hfind
      have hnokey : ∀ e ∈ acc, e.1 ≠ (x.from_node_id, x.to_node_id) :=
        (linksMapFind_eq_none_iff acc _).mp hfind
      have hfr := fwdRecord_eq_none_of_no_key done acc x.from_node_id
        x.to_node_id hlt.le hacc2 hnokey
      refine ⟨?_, ?_, ?_⟩
      · intro e he
        rw [hproc] at he
        rcases List.mem_append.mp he with hin | hnew
        · exact goodEntry_frame done x e (hacc1 e hin)
            (by rw [hkey]; exact hnokey e hin)
        · rw [List.mem_singleton] at hnew
          subst hnew
          unfold goodEntry
          dsimp only
          refine ⟨hlt, rfl, rfl, ?_, ?_, ?_⟩
          · rw [fwdRecord_append_match done x x.from_node_id x.to_node_id
              hfr.1 ⟨rfl, rfl⟩]
          · rw [fwdRecord_append_no_match done x x.to_node_id x.from_node_id
              (by rintro ⟨ha, hb⟩; exact hxne ha), hfr.2]
          · unfold directionOk
            dsimp only
      · intro l hl
        rcases List.mem_append.mp hl with hin | hx
        · obtain ⟨e, he, hek⟩ := hacc2 l hin
          exact ⟨e, (by rw [hproc]; exact List.mem_append_left _ he), hek⟩
        · rw [List.mem_singleton] at hx
          subst hx
          rw [hproc]
          refine ⟨_, List.mem_append_right _ (List.mem_singleton.mpr rfl), ?_⟩
          rw [hkey]
      · rw [hproc, List.pairwise_append]
        refine ⟨hacc3, List.pairwise_singleton _ _, ?_⟩
        intro e he e2 he2
        rw [List.mem_singleton] at he2
        subst he2
        exact hnokey e he
    | some existing =>
      have hproc := processLink_eq_some_lt nodes acc x node1 node2 existing
        h1 h2 hlt hfind
      have hmem0 : ((x.from_node_id, x.to_node_id), existing) ∈ acc :=
        linksMapFind_eq_some acc _ existing hfind
      have hgood0 := hacc1 _ hmem0
      unfold goodEntry at hgood0
      dsimp only at hgood0
      obtain ⟨hlt0, hn1e, hn2e, hl1e, hl2e, hdir0⟩ := hgood0
      have hfwdnone : fwdRecord done x.from_node_id x.to_node_id = none := by
        cases hy : fwdRecord done x.from_node_id x.to_node_id with
        | none => rfl
        | some y =>
          obtain ⟨hymem, hyf, hyt⟩ := fwdRecord_some_spec done _ _ y hy
          exact absurd ⟨hyf, hyt⟩ (hxnew y hymem)
      have hl1none : existing.link1 = none := by rw [hl1e]; exact hfwdnone
      obtain ⟨w, hl2some⟩ : ∃ w, existing.link2 = some w := by
        unfold directionOk at hdir0
        rw [hl1none] at hdir0
        cases hw : existing.link2 with
        | some w => exact ⟨w, rfl⟩
        | none => rw [hw] at hdir0; exact absurd hdir0 (by simp)
      refine ⟨?_, ?_, ?_⟩
      · intro e he
        rw [hproc] at he
        unfold linksMapSet at he
        obtain ⟨e2, he2, hee⟩ := List.mem_map.mp he
        by_cases hk : (e2.1 == (x.from_node_id, x.to_node_id)) = true
        · have he2eq : e2 = ((x.from_node_id, x.to_node_id), existing) :=
            entry_eq_of_pairwise_keys acc hacc3 e2 _ he2 hmem0 (eq_of_beq hk)
          rw [if_pos hk] at hee
          subst hee
          unfold goodEntry
          dsimp only
          refine ⟨hlt, hn1e, hn2e, ?_, ?_, ?_⟩
          · rw [fwdRecord_append_match done x x.from_node_id x.to_node_id
              hfwdnone ⟨rfl, rfl⟩]
          · rw [fwdRecord_append_no_match done x x.to_node_id
              x.from_node_id
              (by rintro ⟨ha, hb⟩; exact hxne ha), ← hl2e]
          · unfold directionOk
            dsimp only
            rw [hl2some]
        · rw [if_neg hk] at hee
          subst hee
          refine goodEntry_frame done x e2 (hacc1 e2 he2) ?_
          rw [hkey]
          exact fun hc => hk (by rw [hc]; exact beq_self_eq_true _)
      · intro l hl
        rcases List.mem_append.mp hl with hin | hx
        · obtain ⟨e, he, hek⟩ := hacc2 l hin
          refine ⟨(if e.1 == (x.from_node_id, x.to_node_id) then
            ((x.from_node_id, x.to_node_id),
              { existing with
                  direction := LinkDirection.bidirectional
                  link1 := some x
                  pos1 := nodePos node1
                  pos2 := nodePos node2 }) else e), ?_, ?_⟩
          · rw [hproc]
            unfold linksMapSet
            exact List.mem_map.mpr ⟨e, he, rfl⟩
          · rw [linksMapSet_key_fix]
            exact hek
        · rw [List.mem_singleton] at hx
          rw [hx, hkey]
          refine ⟨((x.from_node_id, x.to_node_id),
            { existing with
                direction := LinkDirection.bidirectional
                link1 := some x
                pos1 := nodePos node1
                pos2 := nodePos node2 }), ?_, rfl⟩
          rw [hproc]
          unfold linksMapSet
          refine List.mem_map.mpr
            ⟨((x.from_node_id, x.to_node_id), existing), hmem0, ?_⟩
          dsimp only
          rw [if_pos (beq_self_eq_true _)]
      · rw [hproc]
        unfold linksMapSet
        rw [List.pairwise_map]
        refine hacc3.imp ?_
        intro e1 e2 h12
        rw [linksMapSet_key_fix, linksMapSet_key_fix]
        exact h12
  · -- higher→lower record
    have hkey : pairKeyOf x = (x.to_node_id, x.from_node_id) :=
      pairKeyOf_gt x hgt
    cases hfind : linksMapFind acc (x.to_node_id, x.from_node_id) with
    | none =>
      have hproc := processLink_eq_none_gt nodes acc x node1 node2 h1 h2
        hgt hfind
      have hnokey : ∀ e ∈ acc, e.1 ≠ (x.to_node_id, x.from_node_id) :=
        (linksMapFind_eq_none_iff acc _).mp hfind
      have hfr := fwdRecord_eq_none_of_no_key done acc x.to_node_id
        x.from_node_id hgt.le hacc2 hnokey
      refine ⟨?_, ?_, ?_⟩
      · intro e he
        rw [hproc] at he
        rcases List.mem_append.mp he with hin | hnew
        · exact goodEntry_frame done x e (hacc1 e hin)
            (by rw [hkey]; exact hnokey e hin)
        · rw [List.mem_singleton] at hnew
          subst hnew
          unfold goodEntry
          dsimp only
          refine ⟨hgt, rfl, rfl, ?_, ?_, ?_⟩
          · rw [fwdRecord_append_no_match done x x.to_node_id x.from_node_id
              (by rintro ⟨ha, hb⟩; exact hxne ha), hfr.1]
          · rw [fwdRecord_append_match done x x.from_node_id x.to_node_id
              hfr.2 ⟨rfl, rfl⟩]
          · unfold directionOk
            dsimp only
      · intro l hl
        rcases List.mem_append.mp hl with hin | hx
        · obtain ⟨e, he, hek⟩ := hacc2 l hin
          exact ⟨e, (by rw [hproc]; exact List.mem_append_left _ he), hek⟩
        · rw [List.mem_singleton] at hx
          subst hx
          rw [hproc]
          refine ⟨_, List.mem_append_right _ (List.mem_singleton.mpr rfl), ?_⟩
          rw [hkey]
      · rw [hproc, List.pairwise_append]
        refine ⟨hacc3, List.pairwise_singleton _ _, ?_⟩
        intro e he e2 he2
        rw [List.mem_singleton] at he2
        subst he2
        exact hnokey e he
    | some existing =>
      have hproc := processLink_eq_some_gt nodes acc x node1 node2 existing
        h1 h2 hgt hfind
      have hmem0 : ((x.to_node_id, x.from_node_id), existing) ∈ acc :=
        linksMapFind_eq_some acc _ existing hfind
      have hgood0 := hacc1 _ hmem0
      unfold goodEntry at hgood0
      dsimp only at hgood0
      obtain ⟨hlt0, hn1e, hn2e, hl1e, hl2e, hdir0⟩ := hgood0
      have hfwdnone : fwdRecord done x.from_node_id x.to_node_id = none := by
        cases hy : fwdRecord done x.from_node_id x.to_node_id with
        | none => rfl
        | some y =>
          obtain ⟨hymem, hyf, hyt⟩ := fwdRecord_some_spec done _ _ y hy
          exact absurd ⟨hyf, hyt⟩ (hxnew y hymem)
      have hl2none : existing.link2 = none := by rw [hl2e]; exact hfwdnone
      obtain ⟨w, hl1some⟩ : ∃ w, existing.link1 = some w := by
        unfold directionOk at hdir0
        rw [hl2none] at hdir0
        cases hw : existing.link1 with
        | some w => exact ⟨w, rfl⟩
        | none => rw [hw] at hdir0; exact absurd hdir0 (by simp)
      refine ⟨?_, ?_, ?_⟩
      · intro e he
        rw [hproc] at he
        unfold linksMapSet at he
        obtain ⟨e2, he2, hee⟩ := List.mem_map.mp he
        by_cases hk : (e2.1 == (x.to_node_id, x.from_node_id)) = true
        · have he2eq : e2 = ((x.to_node_id, x.from_node_id), existing) :=
            entry_eq_of_pairwise_keys acc hacc3 e2 _ he2 hmem0 (eq_of_beq hk)
          rw [if_pos hk] at hee
          subst hee
          unfold goodEntry
          dsimp only
          refine ⟨hgt, hn1e, hn2e, ?_, ?_, ?_⟩
          · rw [fwdRecord_append_no_match done x x.to_node_id x.from_node_id
              (by rintro ⟨ha, hb⟩; exact hxne ha), ← hl1e]
          · rw [fwdRecord_append_match done x x.from_node_id x.to_node_id
              hfwdnone ⟨rfl, rfl⟩]
          · unfold directionOk
            dsimp only
            rw [hl1some]
        · rw [if_neg hk] at hee
          subst hee
          refine goodEntry_frame done x e2 (hacc1 e2 he2) ?_
          rw [hkey]
          exact fun hc => hk (by rw [hc]; exact beq_self_eq_true _)
      · intro l hl
        rcases List.mem_append.mp hl with hin | hx
        · obtain ⟨e, he, hek⟩ := hacc2 l hin
          refine ⟨(if e.1 == (x.to_node_id, x.from_node_id) then
            ((x.to_node_id, x.from_node_id),
              { existing with
                  direction := LinkDirection.bidirectional
                  link2 := some x
                  pos1 := nodePos node2
                  pos2 := nodePos node1 }) else e), ?_, ?_⟩
          · rw [hproc]
            unfold linksMapSet
            exact List.mem_map.mpr ⟨e, he, rfl⟩
          · rw [linksMapSet_key_fix]
            exact hek
        · rw [List.mem_singleton] at hx
          rw [hx, hkey]
          refine ⟨((x.to_node_id, x.from_node_id),
            { existing with
                direction := LinkDirection.bidirectional
                link2 := some x
                pos1 := nodePos node2
                pos2 := nodePos node1 }), ?_, rfl⟩
          rw [hproc]
          unfold linksMapSet
          refine List.mem_map.mpr
            ⟨((x.to_node_id, x.from_node_id), existing), hmem0, ?_⟩
          dsimp only
          rw [if_pos (beq_self_eq_true _)]
      · rw [hproc]
        unfold linksMapSet
        rw [List.pairwise_map]
        refine hacc3.imp ?_
        intro e1 e2 h12
        rw [linksMapSet_key_fix, linksMapSet_key_fix]
        exact h12

/-- The `processedLinks` fold invariant, by induction over the remaining
records. -/
lemma processedLinks_invariant (nodes : List MeshtasticNode) :
    ∀ (rest done : List DirectLinkData) (acc : LinksMap),
      (∀ l ∈ done ++ rest,
        (lookupNode nodes l.from_node_id).isSome = true ∧
        (lookupNode nodes l.to_node_id).isSome = true) →
      ((done ++ rest).Pairwise (fun l1 l2 =>
        ¬(l1.from_node_id = l2.from_node_id ∧
          l1.to_node_id = l2.to_node_id))) →
      (∀ l ∈ done ++ rest, l.from_node_id ≠ l.to_node_id) →
      (∀ e ∈ acc, goodEntry done e) →
      (∀ l ∈ done, ∃ e ∈ acc, e.1 = pairKeyOf l) →
      acc.Pairwise (fun e1 e2 => e1.1 ≠ e2.1) →
      (∀ e ∈ rest.foldl (processLink nodes) acc,
        goodEntry (done ++ rest) e) ∧
      (∀ l ∈ done ++ rest, ∃ e ∈ rest.foldl (processLink nodes) acc,
        e.1 = pairKeyOf l) := by
  intro rest
  induction rest with
  | nil =>
    intro done acc hnodes hpair hne hacc1 hacc2 hacc3
    simp only [List.append_nil, List.foldl_nil]
    exact ⟨hacc1, hacc2⟩
  | cons x rest ih =>
    intro done acc hnodes hpair hne hacc1 hacc2 hacc3
    have hx_mem : x ∈ done ++ x :: rest :=
      List.mem_append_right _ (List.mem_cons_self x rest)
    have hxnode := hnodes x hx_mem
    have hxne := hne x hx_mem
    have hpair2 := List.pairwise_append.mp hpair
    have hxnew : ∀ l ∈ done, ¬(l.from_node_id = x.from_node_id ∧
        l.to_node_id = x.to_node_id) :=
      fun l hl => hpair2.2.2 l hl x (List.mem_cons_self x rest)
    obtain ⟨hstep1, hstep2, hstep3⟩ := processLink_step nodes done acc x
      hxnode.1 hxnode.2 hxne hxnew hacc1 hacc2 hacc3
    have hre : (done ++ [x]) ++ rest = done ++ x :: rest :=
      (List.append_cons done x rest).symm
    have hmain := ih (done ++ [x]) (processLink nodes acc x)
      (by rw [hre]; exact hnodes)
      (by rw [hre]; exact hpair)
      (by rw [hre]; exact hne)
      hstep1 hstep2 hstep3
    rw [List.foldl_cons]
    constructor
    · intro e he
      have hg := hmain.1 e he
      rw [hre] at hg
      exact hg
    · intro l hl
      have hl2 : l ∈ (done ++ [x]) ++ rest := by rw [hre]; exact hl
      exact hmain.2 l hl2

/-- **C3** — directed links `A→B` and `B→A` are kept distinct and never
coalesced: over any direct-link record set (one record per ordered pair,
records between two distinct known nodes), the display-level merge yields,
per unordered node pair, an entry whose `link1` is exactly the
lower-id→higher-id record and whose `link2` is exactly the
higher-id→lower-id record, marked `bidirectional` precisely when both
directed records exist and unidirectional (`AtoB`/`BtoA`) holding the single
record otherwise; every record's pair is represented. -/
theorem processedLinks_spec (nodes : List MeshtasticNode)
    (directLinks : List DirectLinkData)
    (hnodes : ∀ l ∈ directLinks,
      (lookupNode nodes l.from_node_id).isSome = true ∧
      (lookupNode nodes l.to_node_id).isSome = true)
    (hpairs : directLinks.Pairwise (fun l1 l2 =>
      ¬(l1.from_node_id = l2.from_node_id ∧
        l1.to_node_id = l2.to_node_id)))
    (hne : ∀ l ∈ directLinks, l.from_node_id ≠ l.to_node_id) :
    (∀ pl ∈ processedLinks nodes directLinks,
      pl.node1_id < pl.node2_id ∧
      pl.link1 = fwdRecord directLinks pl.node1_id pl.node2_id ∧
      pl.link2 = fwdRecord directLinks pl.node2_id pl.node1_id ∧
      (pl.direction = LinkDirection.bidirectional ↔
        pl.link1.isSome ∧ pl.link2.isSome) ∧
      (pl.direction = LinkDirection.AtoB ↔
        pl.link1.isSome ∧ pl.link2 = none) ∧
      (pl.direction = LinkDirection.BtoA ↔
        pl.link1 = none ∧ pl.link2.isSome)) ∧
    (∀ l ∈ directLinks, ∃ pl ∈ processedLinks nodes directLinks,
      pl.node1_id = min l.from_node_id l.to_node_id ∧
      pl.node2_id = max l.from_node_id l.to_node_id) := by
  have hinv := processedLinks_invariant nodes directLinks [] []
    (by simpa using hnodes) (by simpa using hpairs) (by simpa using hne)
    (fun e he => absurd he (List.not_mem_nil e))
    (fun l hl => absurd hl (List.not_mem_nil l))
    List.Pairwise.nil
  rw [List.nil_append] at hinv
  obtain ⟨hgood, hkeys⟩ := hinv
  constructor
  · intro pl hpl
    unfold processedLinks at hpl
    obtain ⟨e, he, hpe⟩ := List.mem_map.mp hpl
    obtain ⟨hlt, hid1, hid2, hl1, hl2, hdir⟩ := hgood e he
    subst hpe
    obtain ⟨d1, d2, d3⟩ := directionOk_iff e.2 hdir
    exact ⟨by rw [hid1, hid2]; exact hlt,
      by rw [hid1, hid2]; exact hl1,
      by rw [hid1, hid2]; exact hl2, d1, d2, d3⟩
  · intro l hl
    obtain ⟨e, he, hek⟩ := hkeys l hl
    obtain ⟨hlt, hid1, hid2, _, _, _⟩ := hgood e he
    refine ⟨e.2, ?_, ?_, ?_⟩
    · unfold processedLinks
      exact List.mem_map.mpr ⟨e, he, rfl⟩
    · rw [hid1, hek]
      rfl
    · rw [hid2, hek]
      rfl

/-- **C3 witness**: two known nodes with both directed records between them;
the merge produces an entry for their unordered pair. -/
theorem processedLinks_spec_witness :
    ∃ pl ∈ processedLinks
      [⟨1, false, none, 0, 10, none, none, none⟩,
        ⟨2, false, none, 0, 10, none, none, none⟩]
      [⟨1, 2, 50, some 4, none, "mqtt_hear", 1⟩,
        ⟨2, 1, 60, some 3, none, "neighbor_info", 2⟩],
      pl.node1_id = min (1 : Nat) 2 ∧ pl.node2_id = max (1 : Nat) 2 :=
  (processedLinks_spec
    [⟨1, false, none, 0, 10, none, none, none⟩,
      ⟨2, false, none, 0, 10, none, none, none⟩]
    [⟨1, 2, 50, some 4, none, "mqtt_hear", 1⟩,
      ⟨2, 1, 60, some 3, none, "neighbor_info", 2⟩]
    (by decide) (by decide) (by decide)).2
    ⟨1, 2, 50, some 4, none, "mqtt_hear", 1⟩ (by decide)

end Mtmon
